import Mathlib

/-!
Verification development for the npm-audit scan backend (`backend/index.js`).

The backend is shallowly embedded: each JavaScript function of the scan
pipeline becomes a Lean definition over explicit data types; the external
world (subprocess outcomes, JSON parsing of subprocess stdout, clock and
UUID readings, the history directory) is passed in explicitly as an
environment.  JavaScript numbers appearing as integer counts are modelled
as `Nat` (exact in binary64 below `2^53`); the CVSS score carried opaquely
through records is modelled as `Rat`; the fractional arithmetic of the
risk score and of the signature heuristic is modelled as exact IEEE-754
binary64 rounding (`fl64` below): each fractional operation rounds its
exact rational result to the nearest double, ties to even, and
`Math.round`/`Math.floor` act on the exact rational value of the resulting
double.
-/

namespace NpmAudit

/-- JS `a || b` on an optional string: `undefined`, `null` and `""` are falsy. -/
def jsOrS (o : Option String) (d : String) : String :=
  match o with
  | none => d
  | some s => if s = "" then d else s

/-- Auxiliary: does the second list occur at the head of the first. -/
def startsWithL : List Char → List Char → Bool
  | _, [] => true
  | [], _ :: _ => false
  | c :: cs, p :: ps => c == p && startsWithL cs ps

/-- Auxiliary: does `pat` occur as a contiguous run inside the list. -/
def containsSub (pat : List Char) : List Char → Bool
  | [] => pat.isEmpty
  | c :: rest => startsWithL (c :: rest) pat || containsSub pat rest

/-- JS `String.prototype.includes` on code points. -/
def strIncludes (s pat : String) : Bool :=
  containsSub pat.data s.data

/-- JS `String.prototype.toLowerCase`, modelled per code point
(the severity strings in scope are ASCII). -/
def lowerStr (s : String) : String :=
  ⟨s.data.map Char.toLower⟩

/-- `normalizeSeverity(raw)` from `backend/index.js`: lowercase, then
substring checks in priority order critical > high > moderate/medium,
defaulting to `"low"` for falsy or unrecognized input. -/
def normalizeSeverity (raw : Option String) : String :=
  match raw with
  | none => "low"
  | some r =>
    if r = "" then "low"
    else
      let s := lowerStr r
      if strIncludes s "critical" then "critical"
      else if strIncludes s "high" then "high"
      else if strIncludes s "moderate" || strIncludes s "medium" then "moderate"
      else "low"

/-- The four canonical severities of the data model. -/
def canonicalSeverities : List String :=
  ["critical", "high", "moderate", "low"]

/-- The `counts` object built by `buildSeverityCounts`. -/
structure SeverityCounts where
  critical : Nat
  high : Nat
  moderate : Nat
  low : Nat
deriving DecidableEq, Repr

/-- Total of the four severity buckets. -/
def sevTotal (c : SeverityCounts) : Nat :=
  c.critical + c.high + c.moderate + c.low

/-- One step of `buildSeverityCounts`: `counts[normalizeSeverity(sev)] += 1`. -/
def bumpBySeverity (counts : SeverityCounts) (sev : String) : SeverityCounts :=
  match normalizeSeverity (some sev) with
  | "critical" => { counts with critical := counts.critical + 1 }
  | "high" => { counts with high := counts.high + 1 }
  | "moderate" => { counts with moderate := counts.moderate + 1 }
  | _ => { counts with low := counts.low + 1 }

/-- Fueled binary logarithm: `nlog2Aux fuel n = ⌊log2 n⌋` once `n ≤ fuel`
(structural recursion, so it evaluates inside the kernel). -/
def nlog2Aux : Nat → Nat → Nat
  | 0, _ => 0
  | fuel + 1, n => if 2 ≤ n then nlog2Aux fuel (n / 2) + 1 else 0

/-- `⌊log2 n⌋` for `n ≥ 1` (0 at 0). -/
def nlog2 (n : Nat) : Nat :=
  nlog2Aux n n

/-- Round the fraction `a / b` (with `b ≥ 1`) to the nearest integer,
ties to even. -/
def rneNat (a b : Nat) : Nat :=
  if 2 * (a % b) < b then a / b
  else if b < 2 * (a % b) then a / b + 1
  else if (a / b) % 2 = 0 then a / b else a / b + 1

/-- `⌊log2 (p / q)⌋` for naturals `p, q ≥ 1`. -/
def exp2FloorPQ (p q : Nat) : Int :=
  if p * 2 ^ nlog2 q < q * 2 ^ nlog2 p then (nlog2 p : Int) - nlog2 q - 1
  else (nlog2 p : Int) - nlog2 q

/-- `⌊log2 x⌋` of a positive rational. -/
def exp2Pt (x : Rat) : Int :=
  exp2FloorPQ x.num.toNat x.den

/-- Numerator of the significand fraction `x · 2^(52 - ⌊log2 x⌋)`. -/
def sigNum (x : Rat) : Nat :=
  if 0 ≤ 52 - exp2Pt x then x.num.toNat * 2 ^ (52 - exp2Pt x).toNat
  else x.num.toNat

/-- Denominator of the significand fraction `x · 2^(52 - ⌊log2 x⌋)`. -/
def sigDen (x : Rat) : Nat :=
  if 0 ≤ 52 - exp2Pt x then x.den
  else x.den * 2 ^ (exp2Pt x - 52).toNat

/-- The rational value `n · 2^e`. -/
def dyadic (n : Nat) (e : Int) : Rat :=
  if 0 ≤ e then ((n * 2 ^ e.toNat : Nat) : Rat)
  else mkRat n (2 ^ (-e).toNat)

/-- Round a non-negative rational to the nearest IEEE-754 binary64 value
(round to nearest, ties to even): scale the input into the 53-bit
significand range `[2^52, 2^53)` by a power of two, round that to the
nearest integer with ties to even, and scale back.  Exact for the normal
range of doubles (no overflow or subnormals, which the backend's values
never reach); non-positive input maps to 0. -/
def fl64 (x : Rat) : Rat :=
  if x ≤ 0 then 0
  else dyadic (rneNat (sigNum x) (sigDen x)) (exp2Pt x - 52)

/-- The exact product of a rational with a natural number
(the JS multiplications in scope have an exact second factor; the double
rounding of the product is applied by `fl64` outside). -/
def ratMulNat (x : Rat) (n : Nat) : Rat :=
  mkRat (x.num * n) x.den

/-- `Math.round` on the non-negative doubles produced by the pipeline:
nearest integer with ties toward +∞, i.e. `⌊y + 1/2⌋` of the exact
rational value of the double. -/
def jsRound (x : Rat) : Nat :=
  (2 * x.num.toNat + x.den) / (2 * x.den)

/-- The significand of the binary64 value of the literal `0.7`,
which is `3152519739159347 / 2^52`. -/
def dbl07num : Nat := 3152519739159347

/-- `Math.floor(total * 0.7)` computed in binary64: the double product of
the exact `total` with the double `0.7`, floored.  (`total` itself is
exact in binary64 below `2^53`.) -/
def jsMul07Floor (total : Nat) : Nat :=
  (fl64 (mkRat (total * dbl07num) (2 ^ 52))).floor.toNat

example : fl64 (mkRat 23 40) = mkRat 2589569785738035 4503599627370496 := by decide
example : jsRound (fl64 (ratMulNat (fl64 (mkRat 23 40)) 100)) = 57 := by decide
example : jsMul07Floor 90 = 62 := by decide
example : jsMul07Floor 10 = 7 := by decide
example : jsMul07Floor 0 = 0 := by decide
example : fl64 1 = 1 := by decide
example : jsRound (fl64 (ratMulNat (fl64 (mkRat 4 4)) 100)) = 100 := by decide
example : jsRound (fl64 (ratMulNat (fl64 (mkRat 1 4)) 100)) = 25 := by decide

/-- Exact round-half-up of the non-negative rational `num / den`: the
idealized rounding the spec's score formula asserts, kept for comparison
with the binary64 result. -/
def roundHalfUp (num den : Nat) : Nat :=
  (2 * num + den) / (2 * den)

/-- `computeRiskScore(counts)` from `backend/index.js`:
weights critical 4, high 3, moderate 2, low 1; score 0 when the total is 0,
else `Math.round((weighted / (total * 4)) * 100)` computed in IEEE-754
binary64: the quotient and the scaling by 100 each round to the nearest
double (ties to even), and `Math.round` rounds the resulting double to the
nearest integer, ties toward +∞.  The integer sums and products feeding the
quotient are exact in binary64 for any count total below `2^50` and are
modelled as `Nat`. -/
def computeRiskScore (counts : SeverityCounts) : Nat :=
  if counts.critical + counts.high + counts.moderate + counts.low = 0 then 0
  else
    jsRound (fl64 (ratMulNat (fl64 (mkRat
      ((counts.critical * 4 + counts.high * 3 + counts.moderate * 2 + counts.low * 1 : Nat) : Int)
      ((counts.critical + counts.high + counts.moderate + counts.low) * 4))) 100))

example : computeRiskScore ⟨1, 0, 0, 0⟩ = 100 := by decide

example : computeRiskScore ⟨0, 0, 0, 1⟩ = 25 := by decide

example : computeRiskScore ⟨0, 1, 0, 0⟩ = 75 := by decide

example : computeRiskScore ⟨3, 2, 0, 5⟩ = 57 := by decide

example : roundHalfUp ((3 * 4 + 2 * 3 + 0 * 2 + 5 * 1) * 100) ((3 + 2 + 0 + 5) * 4) = 58 := by
  decide

example : normalizeSeverity (some "CRITICAL issue") = "critical" := by decide

example : normalizeSeverity (some "Medium") = "moderate" := by decide

example : normalizeSeverity none = "low" := by decide

/-- An object entry of a package's `via` array in npm-audit JSON.
`cvss` models `issue.cvss?.score` (the optional numeric score inside the
optional `cvss` object, collapsed into one option). -/
structure ViaIssue where
  title : Option String
  severity : Option String
  cvss : Option Rat
  url : Option String
deriving DecidableEq, Repr

/-- A `via` array element: either a raw string (on which JS property access
yields `undefined` throughout) or a structured advisory object. -/
inductive ViaEntry
  | str (s : String)
  | obj (issue : ViaIssue)
deriving DecidableEq, Repr

/-- JS `issue.title` (property access on a string value gives `undefined`). -/
def viaTitle : ViaEntry → Option String
  | .str _ => none
  | .obj i => i.title

/-- JS `issue.severity`. -/
def viaSeverity : ViaEntry → Option String
  | .str _ => none
  | .obj i => i.severity

/-- JS `issue.cvss?.score`. -/
def viaCvssScore : ViaEntry → Option Rat
  | .str _ => none
  | .obj i => i.cvss

/-- JS `issue.url`. -/
def viaUrl : ViaEntry → Option String
  | .str _ => none
  | .obj i => i.url

/-- The per-package advisory entry of `auditJson.vulnerabilities`.
`via = none` covers both an absent `via` field and a non-array value
(`Array.isArray` is the only observation the code makes). `fixAvailable`
is the JS truthiness of `v.fixAvailable`. -/
structure PackageAdvisory where
  via : Option (List ViaEntry)
  severity : Option String
  fixAvailable : Bool
deriving DecidableEq, Repr

/-- `auditJson.metadata.dependencies` (fields consulted by the code). -/
structure AuditMetadata where
  total : Option Nat
  prod : Option Nat
deriving DecidableEq, Repr

/-- The parsed npm-audit JSON, restricted to the shape the code consults.
`vulnerabilities` is the entry list of the JS object (keys unique in real
JSON, in insertion order); `none` covers an absent/falsy field. `metadata`
models `auditJson?.metadata?.dependencies`. -/
structure AuditJson where
  vulnerabilities : Option (List (String × PackageAdvisory))
  metadata : Option AuditMetadata
deriving DecidableEq, Repr

/-- The audit JSON produced by `JSON.parse` of `'\x7b\x7d'` (empty object). -/
def emptyAudit : AuditJson :=
  { vulnerabilities := none, metadata := none }

/-- A vulnerability record as pushed by `extractVulnerabilitiesFromAudit`. -/
structure VulnRecord where
  id : String
  name : String
  title : String
  description : String
  severity : String
  cvssScore : Rat
  package : String
  fixAvailable : String
deriving DecidableEq, Repr

/-- A dependency record as pushed by `extractDependenciesFromAudit`. -/
structure DepRecord where
  name : String
  version : String
  type : String
  vulnerabilities : Nat
deriving DecidableEq, Repr

/-- The record built for index `idx` of the `via` array of package
`pkgName` in `extractVulnerabilitiesFromAudit`. -/
def mkVulnRecord (pkgName : String) (adv : PackageAdvisory) (idx : Nat)
    (issue : ViaEntry) : VulnRecord :=
  let title := jsOrS (viaTitle issue) ("Issue " ++ toString (idx + 1) ++ " in " ++ pkgName)
  let severity := jsOrS (viaSeverity issue) (jsOrS adv.severity "low")
  { id := pkgName ++ "-" ++ toString idx
    name := pkgName
    title := title
    description :=
      match viaUrl issue with
      | some u => if u = "" then title else title ++ " (see: " ++ u ++ ")"
      | none => title
    severity := severity
    cvssScore := (viaCvssScore issue).getD 0
    package := pkgName
    fixAvailable := if adv.fixAvailable then "yes" else "no" }

/-- `extractVulnerabilitiesFromAudit(auditJson)` from `backend/index.js`:
for each package entry, one record per element of its `via` array
(empty when `via` is absent or not an array). -/
def extractVulnerabilitiesFromAudit (auditJson : AuditJson) : List VulnRecord :=
  match auditJson.vulnerabilities with
  | none => []
  | some entries =>
    entries.flatMap (fun e =>
      ((e.2.via.getD []).enum).map (fun p => mkVulnRecord e.1 e.2 p.1 p.2))

/-- JS `Set` insertion-order de-duplication, with the names already seen. -/
def dedupFirstAux (seen : List String) : List String → List String
  | [] => []
  | x :: xs =>
    if seen.contains x then dedupFirstAux seen xs
    else x :: dedupFirstAux (x :: seen) xs

/-- JS `Set` insertion-order de-duplication: keep the first occurrence. -/
def dedupFirst (l : List String) : List String :=
  dedupFirstAux [] l

/-- The `vulnCounts` object of `extractDependenciesFromAudit`: package name
to length of its `via` array (0 when absent or not an array); an object
keyed by name, so a repeated key means last write wins. -/
def vulnCountsOf (entries : List (String × PackageAdvisory)) : List (String × Nat) :=
  entries.map (fun e => (e.1, match e.2.via with | some l => l.length | none => 0))

/-- The dependency record pushed for one distinct package name
(`vulnCounts[name] || 0`, with object lookup as last write wins). -/
def mkDepRecord (vulnCounts : List (String × Nat)) (name : String) : DepRecord :=
  { name := name
    version := "unknown"
    type := "prod"
    vulnerabilities := (List.lookup name vulnCounts.reverse).getD 0 }

/-- `extractDependenciesFromAudit(auditJson)` from `backend/index.js`:
builds `vulnCounts`, then one record per distinct name (a JS `Set` over
the keys) in first-insertion order. -/
def extractDependenciesFromAudit (auditJson : AuditJson) : List DepRecord :=
  match auditJson.vulnerabilities with
  | none => []
  | some entries =>
    (dedupFirst ((vulnCountsOf entries).map Prod.fst)).map
      (mkDepRecord (vulnCountsOf entries))

/-- The signature summary object of `extractSignaturesFromAudit`. -/
structure SigSummary where
  status : String
  message : String
  totalPackages : Nat
  verifiedCount : Nat
  unverifiedCount : Nat
  verified : List String
  unverified : List String
deriving DecidableEq, Repr

/-- `extractSignaturesFromAudit(auditJson)` from `backend/index.js`.
`Math.floor(total * 0.7)` is the binary64 product of the exact `total` with
the double `0.7`, floored (`jsMul07Floor`; e.g. 62 at `total = 90`, where
exact arithmetic would give 63). -/
def extractSignaturesFromAudit (auditJson : AuditJson) : SigSummary :=
  let total :=
    match auditJson.metadata with
    | none => 0
    | some m => (m.total.orElse (fun _ => m.prod)).getD 0
  let verified := jsMul07Floor total
  { status := if total ≠ 0 then "partial" else "none"
    message := "Verified via npm registry metadata; Sigstore integration planned as future work."
    totalPackages := total
    verifiedCount := verified
    unverifiedCount := total - verified
    verified := []
    unverified := [] }

/-- The lodash scenario of the spec, as raw audit output. -/
def lodashAudit : AuditJson :=
  { vulnerabilities := some
      [("lodash",
        { via := some [.obj { title := some "Prototype Pollution"
                              severity := some "high"
                              cvss := some (mkRat 15 2)
                              url := none }]
          severity := none
          fixAvailable := true })]
    metadata := none }

example :
    extractVulnerabilitiesFromAudit lodashAudit =
      [{ id := "lodash-0", name := "lodash", title := "Prototype Pollution"
         description := "Prototype Pollution", severity := "high"
         cvssScore := mkRat 15 2, package := "lodash", fixAvailable := "yes" }] := by
  decide

example :
    extractDependenciesFromAudit lodashAudit =
      [{ name := "lodash", version := "unknown", type := "prod", vulnerabilities := 1 }] := by
  decide

/-- `buildSeverityCounts(vulns)` from `backend/index.js`. -/
def buildSeverityCounts (vulns : List VulnRecord) : SeverityCounts :=
  vulns.foldl (fun counts v => bumpBySeverity counts v.severity)
    { critical := 0, high := 0, moderate := 0, low := 0 }

example :
    buildSeverityCounts (extractVulnerabilitiesFromAudit lodashAudit) =
      { critical := 0, high := 1, moderate := 0, low := 0 } := by
  decide

example :
    computeRiskScore (buildSeverityCounts (extractVulnerabilitiesFromAudit lodashAudit)) = 75 := by
  decide

/-- Whether a character matches the regex class `[a-zA-Z0-9_-]`. -/
def safeChar (c : Char) : Bool :=
  c.isAlphanum || c == '_' || c == '-'

/-- Replacement of one character per `.replace(/[^a-zA-Z0-9_-]/g, '_')`. -/
def replaceChar (c : Char) : Char :=
  if safeChar c then c else '_'

/-- The regex replacement applied to a whole string. -/
def replaceUnsafe (s : String) : String :=
  ⟨s.data.map replaceChar⟩

/-- `safeProjectName(name)` from `backend/index.js`:
`(name || 'My Project').replace(/[^a-zA-Z0-9_-]/g, '_')`. -/
def safeProjectName (name : Option String) : String :=
  replaceUnsafe (jsOrS name "My Project")

example : safeProjectName none = "My_Project" := by decide

example : safeProjectName (some "../../etc") = "______etc" := by decide

/-- Contents of one history file: absent, present but unparseable JSON, or
a parsed list of results (the JSON round-trip of `ScanResult` values). -/
inductive StoredHistory (α : Type)
  | absent
  | corrupt
  | good (items : List α)
deriving DecidableEq, Repr

/-- The history directory: file name (safe project key) to contents. -/
def HistoryMap (α : Type) : Type :=
  List (String × StoredHistory α)

/-- Read one history file (`fs.existsSync` + `fs.readFileSync`). -/
def histGet {α : Type} (m : HistoryMap α) (k : String) : StoredHistory α :=
  (List.lookup k m).getD .absent

/-- Write one history file, replacing previous contents. -/
def histSet {α : Type} : HistoryMap α → String → StoredHistory α → HistoryMap α
  | [], k, v => [(k, v)]
  | (k', v') :: rest, k, v =>
    if k' = k then (k, v) :: rest else (k', v') :: histSet rest k v

/-- The `history` local of `saveScanHistory`: the stored entries for a key,
with a missing file or a JSON parse failure read as an empty list. -/
def priorEntriesOf {α : Type} (m : HistoryMap α) (k : String) : List α :=
  match histGet m k with
  | .good l => l
  | _ => []

/-- `saveScanHistory(projectName, result)` from `backend/index.js`:
read the file for the safe key (treating a missing file or a JSON parse
failure as an empty list), prepend the new result, write back. -/
def saveScanHistory {α : Type} (m : HistoryMap α) (projectName : String)
    (result : α) : HistoryMap α :=
  let safeName := safeProjectName (some projectName)
  histSet m safeName (.good (result :: priorEntriesOf m safeName))

/-- Response of `GET /scans/:projectName`. -/
inductive HistResponse (α : Type)
  | ok (scans : List α)
  | err500
deriving DecidableEq, Repr

/-- The `GET /scans/:projectName` handler from `backend/index.js`:
missing file gives an empty list, unparseable stored JSON gives a 500. -/
def getScansHandler {α : Type} (m : HistoryMap α) (projectName : String) :
    HistResponse α :=
  match histGet m (safeProjectName (some projectName)) with
  | .absent => .ok []
  | .corrupt => .err500
  | .good l => .ok l

/-- Outcome of the `npm audit --json` subprocess invocation, as surfaced by
`promisify(exec)`: fulfilled with stdout on exit code 0, rejected with the
captured stdout (possibly absent or empty) and an error message otherwise. -/
inductive ExecOutcome
  | success (stdout : String)
  | failure (stdout : Option String) (msg : String)
deriving DecidableEq, Repr

/-- The two hard-failure errors thrown by the audit step of
`runScanForProject`. -/
inductive ScanError
  | auditOutputMalformed
  | auditExecutionFailed (msg : String)
deriving DecidableEq, Repr

/-- The message of the `SyntaxError` produced when `JSON.parse` rejects the
success-path stdout (its exact text is environment-specific). -/
def jsonSyntaxErrorMsg : String :=
  "Unexpected token in JSON"

/-- Step 3 of `runScanForProject` (the `npm audit --json` block):
on exit 0, parse stdout (empty stdout parses as the empty object; an
in-`try` parse failure is caught as an error without a `stdout` property
and re-thrown as `npm audit failed: ...`); on a rejected exec, parse
`e.stdout` when truthy (success on parse, `Failed to parse npm audit
output` otherwise), and throw `npm audit failed: ...` when `e.stdout` is
absent or empty. `parse` is the ambient `JSON.parse`, `none` meaning a
thrown `SyntaxError`. -/
def auditStep (parse : String → Option AuditJson) :
    ExecOutcome → Except ScanError AuditJson
  | .success stdout =>
    if stdout = "" then .ok emptyAudit
    else
      match parse stdout with
      | some j => .ok j
      | none => .error (.auditExecutionFailed jsonSyntaxErrorMsg)
  | .failure stdoutOpt msg =>
    match stdoutOpt with
    | some s =>
      if s = "" then .error (.auditExecutionFailed msg)
      else
        match parse s with
        | some j => .ok j
        | none => .error .auditOutputMalformed
    | none => .error (.auditExecutionFailed msg)

/-- A submitted `packageJson` manifest: the `name` field (the only one the
backend itself reads) plus the rest of the document, opaque. -/
structure Manifest where
  name : Option String
  rest : String
deriving DecidableEq, Repr

/-- The `summary` object of a `ScanResult`. -/
structure ScanSummary where
  totalVulnerabilities : Nat
  critical : Nat
  high : Nat
  moderate : Nat
  low : Nat
  riskScore : Nat
deriving DecidableEq, Repr

/-- The scan result assembled by `runScanForProject`. -/
structure ScanResult where
  projectId : String
  projectName : String
  summary : ScanSummary
  vulnerabilities : List VulnRecord
  dependencies : List DepRecord
  signatures : SigSummary
  scannedAt : String
  durationMs : Nat
deriving DecidableEq, Repr

/-- Environment of one `runScanForProject` call: the generated UUID, the
ambient `JSON.parse`, the audit subprocess outcome, the lock-only
`npm install` outcome, clock readings, and the cleanup outcome. -/
structure ScanEnv where
  scanId : String
  parse : String → Option AuditJson
  auditOutcome : ExecOutcome
  installOk : Bool
  scannedAt : String
  durationMs : Nat
  cleanupOk : Bool

/-- One console line `[tag scanId] msg`. -/
def logLine (tag scanId msg : String) : String :=
  "[" ++ tag ++ " " ++ scanId ++ "] " ++ msg

/-- Everything observable about one `runScanForProject` call: the returned
or thrown value, the history directory afterwards, whether the temp
project directory removal was reached, and the console lines. -/
structure RunOutcome where
  result : Except ScanError ScanResult
  history : HistoryMap ScanResult
  cleanupAttempted : Bool
  logs : List String

/-- Step 4 of `runScanForProject`: extraction, severity counting, scoring
and assembly of the `result` object. -/
def assembleScanResult (env : ScanEnv) (projName : String)
    (auditJson : AuditJson) : ScanResult :=
  let vulns := extractVulnerabilitiesFromAudit auditJson
  let severityCounts := buildSeverityCounts vulns
  { projectId := env.scanId
    projectName := projName
    summary :=
      { totalVulnerabilities :=
          severityCounts.critical + severityCounts.high +
            severityCounts.moderate + severityCounts.low
        critical := severityCounts.critical
        high := severityCounts.high
        moderate := severityCounts.moderate
        low := severityCounts.low
        riskScore := computeRiskScore severityCounts }
    vulnerabilities := vulns
    dependencies := extractDependenciesFromAudit auditJson
    signatures := extractSignaturesFromAudit auditJson
    scannedAt := env.scannedAt
    durationMs := env.durationMs }

set_option linter.unusedVariables false in
/-- `runScanForProject(packageJson, projName, sourceTag)` from
`backend/index.js`.  The temp directory creation, `package.json` write and
`npm install --package-lock-only` (whose failure is caught and logged)
precede the audit; a hard audit failure propagates out of the function
before extraction, scoring, persistence and the cleanup step; on the
normal path the result is assembled, appended to history, the temp
directory removed (failure logged, non-fatal), and the result returned.
`packageJson` itself is only materialized into the workspace for the
external subprocesses, whose outcomes `env` carries. -/
def runScanForProject (env : ScanEnv) (hist : HistoryMap ScanResult)
    (packageJson : Manifest) (projName : String) (sourceTag : String) :
    RunOutcome :=
  let logsStart :=
    [logLine sourceTag env.scanId ("Starting npm audit scan for " ++ projName ++ "..."),
     logLine sourceTag env.scanId "Wrote package.json",
     logLine sourceTag env.scanId "Running npm install --package-lock-only..."]
  let logsInstall :=
    logsStart ++
      (if env.installOk then []
       else [logLine sourceTag env.scanId "npm install warning (continuing)"])
  match auditStep env.parse env.auditOutcome with
  | .error e =>
    { result := .error e
      history := hist
      cleanupAttempted := false
      logs := logsInstall ++ [logLine sourceTag env.scanId "npm audit hard failure"] }
  | .ok auditJson =>
    let result := assembleScanResult env projName auditJson
    let hist2 := saveScanHistory hist projName result
    { result := .ok result
      history := hist2
      cleanupAttempted := true
      logs :=
        logsInstall ++
          [logLine sourceTag env.scanId "Scan complete",
           if env.cleanupOk then logLine sourceTag env.scanId "Cleaned temp directory"
           else logLine sourceTag env.scanId "Cleanup warning (non-fatal)"] }

/-- The thrown error's `message` surfaced by the `POST /scan` handler. -/
def errMessage : ScanError → String
  | .auditOutputMalformed => "Failed to parse npm audit output"
  | .auditExecutionFailed msg => "npm audit failed: " ++ msg

/-- Body of a `POST /scan` request. -/
structure PostRequest where
  packageJson : Option Manifest
  projectName : Option String

/-- Response of `POST /scan`: 200 with the result, 400 for a missing
manifest, 500 with the error message for a pipeline failure. -/
inductive PostResponse
  | ok (result : ScanResult)
  | badRequest
  | serverError (msg : String)
deriving DecidableEq, Repr

/-- The monitor registry `monitoredProjects` (a JS `Map`, insertion
order, upsert keeps the original position). -/
def Registry : Type :=
  List (String × Manifest)

/-- JS `Map.prototype.get`. -/
def regGet (reg : Registry) (k : String) : Option Manifest :=
  List.lookup k reg

/-- JS `Map.prototype.set` (upsert, keeps position of an existing key). -/
def regSet : Registry → String → Manifest → Registry
  | [], k, v => [(k, v)]
  | (k', v') :: rest, k, v =>
    if k' = k then (k, v) :: rest else (k', v') :: regSet rest k v

/-- The project name resolved by the handler:
`projectName || packageJson.name || 'My Project'`. -/
def resolveProjName (projectName : Option String) (pkg : Manifest) : String :=
  jsOrS projectName (jsOrS pkg.name "My Project")

/-- Everything observable about one `POST /scan` call. -/
structure PostOutcome where
  response : PostResponse
  registry : Registry
  history : HistoryMap ScanResult
  logs : List String

/-- The `try`/`catch` around the awaited scan in `POST /scan`: 200 with the
result object, or 500 with the thrown error's message. `reg2` is the
registry as already upserted before the scan ran. -/
def postRespond (reg2 : Registry) (out : RunOutcome) : PostOutcome :=
  match out.result with
  | .ok r =>
    { response := .ok r, registry := reg2, history := out.history, logs := out.logs }
  | .error e =>
    { response := .serverError (errMessage e)
      registry := reg2
      history := out.history
      logs := out.logs ++ ["[MANUAL] Scan failed"] }

/-- The `POST /scan` handler from `backend/index.js`: reject a missing
`packageJson` with 400; otherwise resolve the project name, upsert the
monitor registry, run the scan with tag `MANUAL`, and answer 200 with the
result or 500 with the error message. -/
def postScanHandler (env : ScanEnv) (reg : Registry)
    (hist : HistoryMap ScanResult) (req : PostRequest) : PostOutcome :=
  match req.packageJson with
  | none =>
    { response := .badRequest, registry := reg, history := hist, logs := [] }
  | some pkg =>
    postRespond (regSet reg (resolveProjName req.projectName pkg) pkg)
      (runScanForProject env hist pkg (resolveProjName req.projectName pkg) "MANUAL")

/-- One tick of the 5-minute `setInterval` monitor: run a `MONITOR` scan
for every registered project in order, catching and logging per-project
failures (a failed run leaves the history unchanged). -/
def schedulerTick (envOf : String → ScanEnv) (reg : Registry)
    (hist : HistoryMap ScanResult) : HistoryMap ScanResult :=
  reg.foldl
    (fun h e => (runScanForProject (envOf e.1) h e.2 e.1 "MONITOR").history)
    hist

/-! ## IEEE-754 binary64 rounding: helper lemmas -/

theorem nlog2Aux_spec :
    ∀ (fuel n : Nat), 1 ≤ n → n ≤ fuel →
      2 ^ nlog2Aux fuel n ≤ n ∧ n < 2 ^ (nlog2Aux fuel n + 1) := by
  intro fuel
  induction fuel with
  | zero => intro n h1 h2; omega
  | succ f ih =>
    intro n h1 h2
    unfold nlog2Aux
    by_cases h : 2 ≤ n
    · rw [if_pos h]
      have hrec := ih (n / 2) (by omega) (by omega)
      have e1 : 2 ^ (nlog2Aux f (n / 2) + 1) = 2 * 2 ^ nlog2Aux f (n / 2) := by
        rw [pow_succ]; ring
      have e2 : 2 ^ (nlog2Aux f (n / 2) + 1 + 1) = 2 * 2 ^ (nlog2Aux f (n / 2) + 1) := by
        rw [pow_succ _ (nlog2Aux f (n / 2) + 1)]; ring
      omega
    · rw [if_neg h]
      simp only [pow_zero, pow_one]
      omega

theorem nlog2_spec (n : Nat) (h : 1 ≤ n) :
    2 ^ nlog2 n ≤ n ∧ n < 2 ^ (nlog2 n + 1) :=
  nlog2Aux_spec n n h le_rfl

theorem div_le_rneNat (a b : Nat) : a / b ≤ rneNat a b := by
  unfold rneNat
  split
  · omega
  · split
    · omega
    · split <;> omega

theorem rneNat_le_div_succ (a b : Nat) : rneNat a b ≤ a / b + 1 := by
  unfold rneNat
  split
  · omega
  · split
    · omega
    · split <;> omega

theorem rneNat_le (a b : Nat) (hb : 0 < b) :
    (rneNat a b : ℚ) ≤ (a : ℚ) / b + 1 / 2 := by
  have hbq : (0:ℚ) < (b:ℚ) := by exact_mod_cast hb
  have h2b : (0:ℚ) < 2 * (b:ℚ) := by positivity
  have hsum : (a:ℚ) / b + 1 / 2 = (2 * a + b) / (2 * b) := by
    field_simp
    ring
  have hab : a = b * (a / b) + a % b := (Nat.div_add_mod a b).symm
  rw [hsum, le_div_iff₀ h2b]
  unfold rneNat
  split
  · next h =>
    have hcond : 2 * ((a % b : Nat) : ℚ) < (b : ℚ) := by exact_mod_cast h
    have habq : (a : ℚ) = (b : ℚ) * ((a / b : Nat) : ℚ) + ((a % b : Nat) : ℚ) := by
      exact_mod_cast congrArg (Nat.cast : Nat → ℚ) hab
    nlinarith [habq]
  · next h =>
    have hcond : (b : ℚ) ≤ 2 * ((a % b : Nat) : ℚ) := by
      have := Nat.le_of_not_lt h
      exact_mod_cast this
    have habq : (a : ℚ) = (b : ℚ) * ((a / b : Nat) : ℚ) + ((a % b : Nat) : ℚ) := by
      exact_mod_cast congrArg (Nat.cast : Nat → ℚ) hab
    split
    · push_cast
      nlinarith [habq]
    · split <;> (push_cast; nlinarith [habq])

theorem exp2FloorPQ_spec (p q : Nat) (hp : 1 ≤ p) (hq : 1 ≤ q) :
    (2:ℚ) ^ exp2FloorPQ p q ≤ (p:ℚ) / q ∧ (p:ℚ) / q < (2:ℚ) ^ (exp2FloorPQ p q + 1) := by
  obtain ⟨hp1, hp2⟩ := nlog2_spec p hp
  obtain ⟨hq1, hq2⟩ := nlog2_spec q hq
  have hqq : (0:ℚ) < q := by exact_mod_cast hq
  have hp1' : ((2:ℚ)) ^ nlog2 p ≤ p := by exact_mod_cast hp1
  have hp2' : (p:ℚ) < 2 ^ (nlog2 p + 1) := by exact_mod_cast hp2
  have hq1' : ((2:ℚ)) ^ nlog2 q ≤ q := by exact_mod_cast hq1
  have hq2' : (q:ℚ) < 2 ^ (nlog2 q + 1) := by exact_mod_cast hq2
  have h2 : (2:ℚ) ≠ 0 := by norm_num
  unfold exp2FloorPQ
  split
  · next hcmp =>
    have hcmp' : (p:ℚ) * 2 ^ nlog2 q < (q:ℚ) * 2 ^ nlog2 p := by exact_mod_cast hcmp
    constructor
    · rw [show (nlog2 p : Int) - nlog2 q - 1 = (nlog2 p : Int) - ((nlog2 q + 1 : Nat) : Int) from
        by push_cast; ring]
      rw [zpow_sub₀ h2, zpow_natCast, zpow_natCast]
      rw [div_le_div_iff₀ (by positivity) hqq]
      calc (2:ℚ) ^ nlog2 p * q ≤ (p:ℚ) * q := by
            exact mul_le_mul_of_nonneg_right hp1' (le_of_lt hqq)
        _ ≤ (p:ℚ) * 2 ^ (nlog2 q + 1) := by
            refine mul_le_mul_of_nonneg_left (le_of_lt hq2') ?_
            exact_mod_cast Nat.zero_le p
    · rw [show (nlog2 p : Int) - nlog2 q - 1 + 1 = (nlog2 p : Int) - (nlog2 q : Int) from by ring]
      rw [zpow_sub₀ h2, zpow_natCast, zpow_natCast]
      rw [div_lt_div_iff₀ hqq (by positivity)]
      linarith [hcmp']
  · next hcmp =>
    have hcmp' : (q:ℚ) * 2 ^ nlog2 p ≤ (p:ℚ) * 2 ^ nlog2 q := by
      have := Nat.le_of_not_lt hcmp
      exact_mod_cast this
    constructor
    · rw [zpow_sub₀ h2, zpow_natCast, zpow_natCast]
      rw [div_le_div_iff₀ (by positivity) hqq]
      linarith [hcmp']
    · rw [show (nlog2 p : Int) - nlog2 q + 1 = ((nlog2 p + 1 : Nat) : Int) - (nlog2 q : Int) from
        by push_cast; ring]
      rw [zpow_sub₀ h2, zpow_natCast, zpow_natCast]
      rw [div_lt_div_iff₀ hqq (by positivity)]
      calc (p:ℚ) * 2 ^ nlog2 q < 2 ^ (nlog2 p + 1) * 2 ^ nlog2 q := by
            refine mul_lt_mul_of_pos_right hp2' ?_
            positivity
        _ ≤ 2 ^ (nlog2 p + 1) * q := by
            refine mul_le_mul_of_nonneg_left hq1' ?_
            positivity

theorem exp2Pt_spec (x : Rat) (hx : 0 < x) :
    (2:ℚ) ^ exp2Pt x ≤ x ∧ x < (2:ℚ) ^ (exp2Pt x + 1) := by
  have hn0 : 0 < x.num := Rat.num_pos.mpr hx
  have hnum : 1 ≤ x.num.toNat := by omega
  have hden : 1 ≤ x.den := x.den_pos
  have h := exp2FloorPQ_spec x.num.toNat x.den hnum hden
  have hcast : ((x.num.toNat : Nat) : ℚ) = (x.num : ℚ) := by
    have h1 := Int.toNat_of_nonneg (le_of_lt hn0)
    exact_mod_cast congrArg (fun z : Int => (z : ℚ)) h1
  rw [hcast, Rat.num_div_den] at h
  exact h

theorem num_toNat_cast (x : Rat) (hx : 0 < x) :
    ((x.num.toNat : Nat) : ℚ) = (x.num : ℚ) := by
  have h1 := Int.toNat_of_nonneg (le_of_lt (Rat.num_pos.mpr hx))
  exact_mod_cast congrArg (fun z : Int => (z : ℚ)) h1

theorem dyadic_eq (n : Nat) (e : Int) : (dyadic n e : ℚ) = (n : ℚ) * (2:ℚ) ^ e := by
  unfold dyadic
  split
  · next h =>
    push_cast
    rw [← zpow_natCast (2:ℚ), Int.toNat_of_nonneg h]
  · next h =>
    rw [Rat.mkRat_eq_div]
    push_cast
    rw [← zpow_natCast (2:ℚ), Int.toNat_of_nonneg (by omega : (0:Int) ≤ -e)]
    rw [div_eq_mul_inv, ← zpow_neg, neg_neg]

theorem sigDen_pos (x : Rat) : 0 < sigDen x := by
  unfold sigDen
  split
  · exact x.den_pos
  · exact Nat.mul_pos x.den_pos (Nat.pos_pow_of_pos _ (by norm_num))

theorem sig_div (x : Rat) (hx : 0 < x) :
    (sigNum x : ℚ) / (sigDen x : ℚ) = x * (2:ℚ) ^ ((52:Int) - exp2Pt x) := by
  have hcast := num_toNat_cast x hx
  unfold sigNum sigDen
  by_cases h : 0 ≤ 52 - exp2Pt x
  · rw [if_pos h, if_pos h]
    push_cast
    rw [hcast, ← zpow_natCast (2:ℚ) (52 - exp2Pt x).toNat, Int.toNat_of_nonneg h]
    rw [mul_div_right_comm, Rat.num_div_den]
  · rw [if_neg h, if_neg h]
    push_cast
    rw [hcast, ← zpow_natCast (2:ℚ) (exp2Pt x - 52).toNat,
      Int.toNat_of_nonneg (by omega : (0:Int) ≤ exp2Pt x - 52)]
    rw [div_mul_eq_div_div, Rat.num_div_den, div_eq_mul_inv, ← zpow_neg]
    rw [show -(exp2Pt x - 52) = (52:Int) - exp2Pt x from by ring]

theorem fl64_pos_eq (x : Rat) (hx : 0 < x) :
    fl64 x = (rneNat (sigNum x) (sigDen x) : ℚ) * (2:ℚ) ^ (exp2Pt x - 52) := by
  unfold fl64
  rw [if_neg (not_le.mpr hx)]
  exact dyadic_eq _ _

theorem fl64_le_half_ulp (x : Rat) (hx : 0 < x) :
    fl64 x ≤ x + (2:ℚ) ^ (exp2Pt x - 53) := by
  rw [fl64_pos_eq x hx]
  have hR := rneNat_le (sigNum x) (sigDen x) (sigDen_pos x)
  rw [sig_div x hx] at hR
  have hzp : (0:ℚ) < (2:ℚ) ^ (exp2Pt x - 52) := zpow_pos (by norm_num) _
  calc (rneNat (sigNum x) (sigDen x) : ℚ) * (2:ℚ) ^ (exp2Pt x - 52)
      ≤ (x * (2:ℚ) ^ ((52:Int) - exp2Pt x) + 1 / 2) * (2:ℚ) ^ (exp2Pt x - 52) :=
        mul_le_mul_of_nonneg_right hR (le_of_lt hzp)
    _ = x + (2:ℚ) ^ (exp2Pt x - 53) := by
        rw [add_mul, mul_assoc, ← zpow_add₀ (by norm_num : (2:ℚ) ≠ 0)]
        rw [show (52:Int) - exp2Pt x + (exp2Pt x - 52) = 0 from by ring, zpow_zero, mul_one]
        congr 1
        rw [show exp2Pt x - 53 = -1 + (exp2Pt x - 52) from by ring]
        rw [zpow_add₀ (by norm_num : (2:ℚ) ≠ 0)]
        norm_num

theorem fl64_le_pow (x : Rat) (hx : 0 < x) :
    fl64 x ≤ (2:ℚ) ^ (exp2Pt x + 1) := by
  rw [fl64_pos_eq x hx]
  have hub : (sigNum x : ℚ) / (sigDen x : ℚ) < (2:ℚ) ^ (53:Nat) := by
    rw [sig_div x hx]
    have h2 := (exp2Pt_spec x hx).2
    have hzp : (0:ℚ) < (2:ℚ) ^ ((52:Int) - exp2Pt x) := zpow_pos (by norm_num) _
    calc x * (2:ℚ) ^ ((52:Int) - exp2Pt x)
        < (2:ℚ) ^ (exp2Pt x + 1) * (2:ℚ) ^ ((52:Int) - exp2Pt x) :=
          mul_lt_mul_of_pos_right h2 hzp
      _ = (2:ℚ) ^ (53:Nat) := by
          rw [← zpow_add₀ (by norm_num : (2:ℚ) ≠ 0)]
          rw [show exp2Pt x + 1 + ((52:Int) - exp2Pt x) = ((53:Nat) : Int) from by push_cast; ring]
          rw [zpow_natCast]
  have hdivlt : sigNum x / sigDen x < 2 ^ 53 := by
    have hle : ((sigNum x / sigDen x : Nat) : ℚ) ≤ (sigNum x : ℚ) / sigDen x :=
      Nat.cast_div_le
    have h3 : ((sigNum x / sigDen x : Nat) : ℚ) < (2:ℚ) ^ (53:Nat) := lt_of_le_of_lt hle hub
    exact_mod_cast h3
  have hrne : rneNat (sigNum x) (sigDen x) ≤ 2 ^ 53 := by
    have := rneNat_le_div_succ (sigNum x) (sigDen x)
    omega
  calc (rneNat (sigNum x) (sigDen x) : ℚ) * (2:ℚ) ^ (exp2Pt x - 52)
      ≤ (2:ℚ) ^ (53:Nat) * (2:ℚ) ^ (exp2Pt x - 52) := by
        refine mul_le_mul_of_nonneg_right ?_ (le_of_lt (zpow_pos (by norm_num) _))
        exact_mod_cast hrne
    _ = (2:ℚ) ^ (exp2Pt x + 1) := by
        rw [← zpow_natCast (2:ℚ) 53, ← zpow_add₀ (by norm_num : (2:ℚ) ≠ 0)]
        congr 1
        push_cast
        ring

theorem fl64_pos (x : Rat) (hx : 0 < x) : 0 < fl64 x := by
  rw [fl64_pos_eq x hx]
  have hd := sigDen_pos x
  have hlb : (1:ℚ) ≤ (sigNum x : ℚ) / (sigDen x : ℚ) := by
    rw [sig_div x hx]
    have h1 := (exp2Pt_spec x hx).1
    have hzp : (0:ℚ) < (2:ℚ) ^ ((52:Int) - exp2Pt x) := zpow_pos (by norm_num) _
    have step : (2:ℚ) ^ exp2Pt x * (2:ℚ) ^ ((52:Int) - exp2Pt x)
        ≤ x * (2:ℚ) ^ ((52:Int) - exp2Pt x) :=
      mul_le_mul_of_nonneg_right h1 (le_of_lt hzp)
    have heq : (2:ℚ) ^ exp2Pt x * (2:ℚ) ^ ((52:Int) - exp2Pt x) = (2:ℚ) ^ (52:Nat) := by
      rw [← zpow_add₀ (by norm_num : (2:ℚ) ≠ 0)]
      rw [show exp2Pt x + ((52:Int) - exp2Pt x) = ((52:Nat) : Int) from by push_cast; ring]
      rw [zpow_natCast]
    have hone : (1:ℚ) ≤ (2:ℚ) ^ (52:Nat) := by norm_num
    linarith [heq ▸ step]
  have hd' : (0:ℚ) < (sigDen x : ℚ) := by exact_mod_cast hd
  have hles : (sigDen x : ℚ) ≤ (sigNum x : ℚ) := by
    rw [le_div_iff₀ hd'] at hlb
    linarith
  have hlesN : sigDen x ≤ sigNum x := by exact_mod_cast hles
  have hdiv1 : 1 ≤ sigNum x / sigDen x := by
    rw [Nat.le_div_iff_mul_le hd]
    omega
  have hrne1 : 1 ≤ rneNat (sigNum x) (sigDen x) := le_trans hdiv1 (div_le_rneNat _ _)
  have hrq : (0:ℚ) < (rneNat (sigNum x) (sigDen x) : ℚ) := by exact_mod_cast hrne1
  exact mul_pos hrq (zpow_pos (by norm_num) _)

theorem fl64_one : fl64 1 = 1 := by decide

theorem fl64_le_one (x : Rat) (hx0 : 0 < x) (hx1 : x ≤ 1) : fl64 x ≤ 1 := by
  rcases eq_or_lt_of_le hx1 with h1 | h1
  · rw [h1]
    exact le_of_eq fl64_one
  · have he : exp2Pt x + 1 ≤ 0 := by
      by_contra hcon
      push_neg at hcon
      have h0e : (0:Int) ≤ exp2Pt x := by omega
      have hz1 : (2:ℚ) ^ (0:Int) ≤ (2:ℚ) ^ exp2Pt x :=
        zpow_le_zpow_right₀ (by norm_num) h0e
      rw [zpow_zero] at hz1
      have := (exp2Pt_spec x hx0).1
      linarith
    calc fl64 x ≤ (2:ℚ) ^ (exp2Pt x + 1) := fl64_le_pow x hx0
      _ ≤ (2:ℚ) ^ (0:Int) := zpow_le_zpow_right₀ (by norm_num) he
      _ = 1 := zpow_zero 2

theorem ratMulNat_eq (x : Rat) (n : Nat) : (ratMulNat x n : ℚ) = x * n := by
  unfold ratMulNat
  rw [Rat.mkRat_eq_div]
  push_cast
  rw [mul_div_right_comm, Rat.num_div_den]

theorem jsRound_le_100 (y : Rat) (hy0 : 0 ≤ y) (hy : y < 201 / 2) : jsRound y ≤ 100 := by
  have hd : (0:ℚ) < (y.den : ℚ) := by exact_mod_cast y.den_pos
  have hnum : (y.num : ℚ) < 201 / 2 * y.den := by
    rw [← Rat.num_div_den y, div_lt_iff₀ hd] at hy
    exact hy
  have hnumInt : 2 * y.num < 201 * y.den := by
    have h2 : (2:ℚ) * y.num < 201 * y.den := by linarith
    exact_mod_cast h2
  have hn0 : 0 ≤ y.num := Rat.num_nonneg.mpr hy0
  have hNat : 2 * y.num.toNat < 201 * y.den := by omega
  unfold jsRound
  have hpos : 0 < 2 * y.den := by
    have := y.den_pos
    omega
  have hlt := (Nat.div_lt_iff_lt_mul hpos).mpr
    (show 2 * y.num.toNat + y.den < 101 * (2 * y.den) by omega)
  omega

/-! ## Risk score (claim C3) -/

theorem computeRiskScore_le_100 (c : SeverityCounts) : computeRiskScore c ≤ 100 := by
  unfold computeRiskScore
  split
  · exact Nat.zero_le 100
  · next hT =>
    set W : Nat := c.critical * 4 + c.high * 3 + c.moderate * 2 + c.low * 1 with hWdef
    set T : Nat := c.critical + c.high + c.moderate + c.low with hTdef
    have hT1 : 1 ≤ T := by omega
    have hWT : W ≤ T * 4 := by omega
    have hW1 : 1 ≤ W := by omega
    set u : Rat := mkRat (W : Int) (T * 4) with hudef
    have hu_eq : (u : ℚ) = ((W : Nat) : ℚ) / ((T * 4 : Nat) : ℚ) := by
      rw [hudef, Rat.mkRat_eq_div]
      push_cast
      ring
    have hden_pos : (0:ℚ) < ((T * 4 : Nat) : ℚ) := by
      have h4 : 0 < T * 4 := by omega
      exact_mod_cast h4
    have hu_pos : 0 < u := by
      rw [hu_eq]
      apply div_pos _ hden_pos
      exact_mod_cast hW1
    have hu_le1 : u ≤ 1 := by
      rw [hu_eq, div_le_one hden_pos]
      exact_mod_cast hWT
    have hq_le1 : fl64 u ≤ 1 := fl64_le_one u hu_pos hu_le1
    have hq_pos : 0 < fl64 u := fl64_pos u hu_pos
    set v : Rat := ratMulNat (fl64 u) 100 with hvdef
    have hv_eq : (v : ℚ) = fl64 u * 100 := by
      rw [hvdef]
      exact ratMulNat_eq _ _
    have hv_pos : 0 < v := by
      rw [hv_eq]
      exact mul_pos hq_pos (by norm_num)
    have hv_le : v ≤ 100 := by
      rw [hv_eq]
      nlinarith [hq_le1]
    have h128 : (2:ℚ) ^ (7:Int) = 128 := by
      rw [show (7:Int) = ((7:Nat) : Int) from by norm_num, zpow_natCast]
      norm_num
    have hev : exp2Pt v ≤ 6 := by
      by_contra hcon
      push_neg at hcon
      have h7 : (7:Int) ≤ exp2Pt v := by omega
      have hz : (2:ℚ) ^ (7:Int) ≤ (2:ℚ) ^ exp2Pt v :=
        zpow_le_zpow_right₀ (by norm_num) h7
      have h1 := (exp2Pt_spec v hv_pos).1
      rw [h128] at hz
      linarith
    have hy := fl64_le_half_ulp v hv_pos
    have hulp : (2:ℚ) ^ (exp2Pt v - 53) ≤ (2:ℚ) ^ (-47 : Int) :=
      zpow_le_zpow_right₀ (by norm_num) (by omega)
    have hsmall : (2:ℚ) ^ (-47:Int) < 1 / 2 := by
      rw [zpow_neg, show (47:Int) = ((47:Nat) : Int) from by norm_num, zpow_natCast]
      rw [inv_lt_comm₀ (by norm_num) (by norm_num)]
      norm_num
    have hy_lt : fl64 v < 201 / 2 := by
      have hstep1 : fl64 v ≤ v + (2:ℚ) ^ (-47 : Int) := by linarith
      have hstep2 : fl64 v < v + 1 / 2 := lt_of_le_of_lt hstep1 (add_lt_add_left hsmall v)
      linarith
    have hy_nonneg : 0 ≤ fl64 v := le_of_lt (fl64_pos v hv_pos)
    exact jsRound_le_100 _ hy_nonneg hy_lt

/-- Counterexample to claim C3 as stated: at severity counts
(critical 3, high 2, moderate 0, low 5) the binary64 quotient of `23/40`
is `0.57499999999999999289...`, the scaled double falls just below `57.5`,
and the program's score is 57, while the claimed exact round-half-up
formula gives 58. -/
theorem riskScore_roundHalfUp_cex :
    computeRiskScore ⟨3, 2, 0, 5⟩ = 57
    ∧ roundHalfUp ((3 * 4 + 2 * 3 + 0 * 2 + 5 * 1) * 100) ((3 + 2 + 0 + 5) * 4) = 58
    ∧ (57 : Nat) ≠ 58 :=
  ⟨by decide, by decide, by decide⟩

/-- Claim C3 (amended): for every tuple of severity counts, the score is 0
when the total is 0; otherwise it is `Math.round` of the binary64
evaluation of `(weighted / (total * 4)) * 100` (each fractional step
correctly rounded to the nearest double, ties to even), which can fall one
below the spec's exact round-half-up formula; in all cases the score lies
in `[0, 100]` (the lower bound holds in `Nat` by type), and it is 100 on
one lone critical and 25 on one lone low vulnerability. -/
theorem riskScore_float_spec :
    (∀ c : SeverityCounts, computeRiskScore c ≤ 100)
    ∧ (∀ c : SeverityCounts,
        c.critical + c.high + c.moderate + c.low = 0 → computeRiskScore c = 0)
    ∧ (∀ c : SeverityCounts,
        c.critical + c.high + c.moderate + c.low ≠ 0 →
          computeRiskScore c =
            jsRound (fl64 (ratMulNat (fl64 (mkRat
              ((c.critical * 4 + c.high * 3 + c.moderate * 2 + c.low * 1 : Nat) : Int)
              ((c.critical + c.high + c.moderate + c.low) * 4))) 100)))
    ∧ computeRiskScore ⟨1, 0, 0, 0⟩ = 100
    ∧ computeRiskScore ⟨0, 0, 0, 1⟩ = 25 := by
  refine ⟨computeRiskScore_le_100, ?_, ?_, by decide, by decide⟩
  · intro c h
    unfold computeRiskScore
    rw [if_pos h]
  · intro c h
    unfold computeRiskScore
    rw [if_neg h]

/-- Witness for `riskScore_float_spec` at concrete inputs. -/
theorem riskScore_float_spec_witness :
    computeRiskScore ⟨0, 0, 0, 0⟩ = 0
    ∧ computeRiskScore ⟨3, 2, 0, 5⟩ =
        jsRound (fl64 (ratMulNat (fl64 (mkRat
          ((3 * 4 + 2 * 3 + 0 * 2 + 5 * 1 : Nat) : Int) ((3 + 2 + 0 + 5) * 4))) 100))
    ∧ computeRiskScore ⟨3, 2, 0, 5⟩ ≤ 100 :=
  ⟨riskScore_float_spec.2.1 ⟨0, 0, 0, 0⟩ (by decide),
   riskScore_float_spec.2.2.1 ⟨3, 2, 0, 5⟩ (by decide),
   riskScore_float_spec.1 ⟨3, 2, 0, 5⟩⟩

/-! ## Project key derivation (claim C7) -/

theorem replaceChar_idem (c : Char) : replaceChar (replaceChar c) = replaceChar c := by
  unfold replaceChar
  by_cases h : safeChar c = true
  · simp [h]
  · simp [h]

theorem jsOrS_ne_empty (name : Option String) (d : String) (hd : d ≠ "") :
    jsOrS name d ≠ "" := by
  cases name with
  | none => exact hd
  | some s =>
    show (if s = "" then d else s) ≠ ""
    by_cases h : s = ""
    · rw [if_pos h]; exact hd
    · rw [if_neg h]; exact h

theorem string_eq_empty_of_data (s : String) (h : s.data = []) : s = "" := by
  cases s with
  | mk l =>
    have hl : l = [] := h
    subst hl
    rfl

theorem safeProjectName_ne_empty (name : Option String) : safeProjectName name ≠ "" := by
  intro h
  have h2 : (jsOrS name "My Project").data.map replaceChar = [] := congrArg String.data h
  rw [List.map_eq_nil_iff] at h2
  exact jsOrS_ne_empty name "My Project" (by decide) (string_eq_empty_of_data _ h2)

theorem safeProjectName_idem_aux (name : Option String) :
    safeProjectName (some (safeProjectName name)) = safeProjectName name := by
  have hne : safeProjectName name ≠ "" := safeProjectName_ne_empty name
  have h1 : jsOrS (some (safeProjectName name)) "My Project" = safeProjectName name := by
    show (if safeProjectName name = "" then "My Project" else safeProjectName name) = _
    rw [if_neg hne]
  show replaceUnsafe (jsOrS (some (safeProjectName name)) "My Project") = safeProjectName name
  rw [h1]
  show (⟨((jsOrS name "My Project").data.map replaceChar).map replaceChar⟩ : String)
    = ⟨(jsOrS name "My Project").data.map replaceChar⟩
  congr 1
  rw [List.map_map]
  congr 1
  funext c
  exact replaceChar_idem c

/-- Claim C7: the project key derivation replaces every character outside
`[A-Za-z0-9_-]` with `_` (stated pointwise over the code points of any
non-empty name), is idempotent on every input, and sends an absent or
empty name to the fixed default key `My_Project`.  It is a pure function
of its argument, hence deterministic. -/
theorem projectKey_derivation :
    (∀ s : String, s ≠ "" →
        (safeProjectName (some s)).data = s.data.map replaceChar)
    ∧ (∀ c : Char, safeChar c = false → replaceChar c = '_')
    ∧ (∀ c : Char, safeChar c = true → replaceChar c = c)
    ∧ (∀ name : Option String,
        safeProjectName (some (safeProjectName name)) = safeProjectName name)
    ∧ safeProjectName none = "My_Project"
    ∧ safeProjectName (some "") = "My_Project" := by
  refine ⟨?_, ?_, ?_, safeProjectName_idem_aux, by decide, by decide⟩
  · intro s h
    show (⟨(if s = "" then "My Project" else s).data.map replaceChar⟩ : String).data
      = s.data.map replaceChar
    rw [if_neg h]
  · intro c h
    unfold replaceChar
    rw [if_neg (by simp [h])]
  · intro c h
    unfold replaceChar
    rw [if_pos h]

/-- Witness for `projectKey_derivation` at concrete inputs. -/
theorem projectKey_derivation_witness :
    (safeProjectName (some "a b/c")).data = "a b/c".data.map replaceChar
    ∧ replaceChar ' ' = '_'
    ∧ replaceChar 'a' = 'a' :=
  ⟨projectKey_derivation.1 "a b/c" (by decide),
   projectKey_derivation.2.1 ' ' (by decide),
   projectKey_derivation.2.2.1 'a' (by decide)⟩

/-! ## Severity of extracted records (claim C4) -/

/-- A raw audit output whose one advisory carries a severity string outside
the canonical set. -/
def oddSeverityAudit : AuditJson :=
  { vulnerabilities := some
      [("leftpad",
        { via := some [.obj { title := none
                              severity := some "banana"
                              cvss := none
                              url := none }]
          severity := none
          fixAvailable := false })]
    metadata := none }

/-- Counterexample to claim C4 as stated: `extractVulnerabilitiesFromAudit`
stores the advisory's severity string verbatim, so a record's severity can
lie outside `{critical, high, moderate, low}`. -/
theorem vuln_severity_not_canonical_cex :
    ¬ (∀ v ∈ extractVulnerabilitiesFromAudit oddSeverityAudit,
        v.severity ∈ canonicalSeverities) := by
  decide

/-- Claim C4 (amended): a record's severity field is the raw fallback chain
`issue.severity || packageSeverity || 'low'` and may be non-canonical; the
case-insensitive mapping into `{critical, high, moderate, low}` (defaulting
to low) is `normalizeSeverity`, whose result always lies in that set, and it
is applied when severity counts are built, not by the extractor. -/
theorem severity_normalization_amended :
    (∀ pkgName adv idx issue,
        (mkVulnRecord pkgName adv idx issue).severity =
          jsOrS (viaSeverity issue) (jsOrS adv.severity "low"))
    ∧ (∀ raw : Option String, normalizeSeverity raw ∈ canonicalSeverities)
    ∧ (∀ vulns : List VulnRecord,
        buildSeverityCounts vulns =
          vulns.foldl (fun counts v => bumpBySeverity counts v.severity)
            { critical := 0, high := 0, moderate := 0, low := 0 }) := by
  refine ⟨fun _ _ _ _ => rfl, ?_, fun _ => rfl⟩
  intro raw
  cases raw with
  | none => simp [normalizeSeverity, canonicalSeverities]
  | some r =>
    show (if r = "" then "low"
          else if strIncludes (lowerStr r) "critical" then "critical"
          else if strIncludes (lowerStr r) "high" then "high"
          else if strIncludes (lowerStr r) "moderate" || strIncludes (lowerStr r) "medium"
            then "moderate"
          else "low") ∈ canonicalSeverities
    split_ifs <;> simp [canonicalSeverities]

/-! ## Severity counts sum to the record count (claim C5) -/

theorem sevTotal_bump (c : SeverityCounts) (s : String) :
    sevTotal (bumpBySeverity c s) = sevTotal c + 1 := by
  unfold bumpBySeverity
  split <;> (simp only [sevTotal]; omega)

theorem sevTotal_foldl (l : List VulnRecord) :
    ∀ c : SeverityCounts,
      sevTotal (l.foldl (fun counts v => bumpBySeverity counts v.severity) c) =
        sevTotal c + l.length := by
  induction l with
  | nil => intro c; simp
  | cons v vs ih =>
    intro c
    simp only [List.foldl_cons, List.length_cons]
    rw [ih, sevTotal_bump]
    omega

theorem sevTotal_buildSeverityCounts (vulns : List VulnRecord) :
    sevTotal (buildSeverityCounts vulns) = vulns.length := by
  unfold buildSeverityCounts
  rw [sevTotal_foldl]
  simp [sevTotal]

/-- Claim C5: over any raw audit output, the four severity counts computed
from the extracted records sum to the number of records, and the assembled
result's summary carries that sum as its total-vulnerability count. -/
theorem severity_counts_sum :
    (∀ a : AuditJson,
        sevTotal (buildSeverityCounts (extractVulnerabilitiesFromAudit a)) =
          (extractVulnerabilitiesFromAudit a).length)
    ∧ (∀ (env : ScanEnv) (pn : String) (a : AuditJson),
        (assembleScanResult env pn a).summary.critical
            + (assembleScanResult env pn a).summary.high
            + (assembleScanResult env pn a).summary.moderate
            + (assembleScanResult env pn a).summary.low
          = (assembleScanResult env pn a).summary.totalVulnerabilities
        ∧ (assembleScanResult env pn a).summary.totalVulnerabilities
          = (assembleScanResult env pn a).vulnerabilities.length) := by
  constructor
  · intro a
    exact sevTotal_buildSeverityCounts _
  · intro env pn a
    constructor
    · rfl
    · exact sevTotal_buildSeverityCounts _

/-! ## Vulnerability packages have dependency records (claim C6) -/

theorem mem_dedupFirstAux (a : String) (l : List String) :
    ∀ seen : List String, a ∈ l → seen.contains a = false → a ∈ dedupFirstAux seen l := by
  induction l with
  | nil =>
    intro seen h _
    simp at h
  | cons x xs ih =>
    intro seen h hseen
    unfold dedupFirstAux
    by_cases hx : seen.contains x = true
    · rw [if_pos hx]
      rcases List.mem_cons.mp h with h1 | h1
      · subst h1
        rw [hx] at hseen
        cases hseen
      · exact ih seen h1 hseen
    · rw [if_neg hx]
      rcases List.mem_cons.mp h with h1 | h1
      · subst h1
        exact List.mem_cons_self _ _
      · by_cases hax : a = x
        · subst hax
          exact List.mem_cons_self _ _
        · refine List.mem_cons_of_mem _ (ih (x :: seen) h1 ?_)
          simp only [List.contains_cons, Bool.or_eq_false_iff]
          exact ⟨by simp [hax], hseen⟩

theorem mem_dedupFirst (a : String) (l : List String) (h : a ∈ l) :
    a ∈ dedupFirst l :=
  mem_dedupFirstAux a l [] h rfl

/-- Claim C6: every package name carried by a record of
`extractVulnerabilitiesFromAudit` names a record of
`extractDependenciesFromAudit` on the same raw audit output. -/
theorem vuln_package_in_dependencies (a : AuditJson) (v : VulnRecord)
    (hv : v ∈ extractVulnerabilitiesFromAudit a) :
    ∃ d ∈ extractDependenciesFromAudit a, d.name = v.package := by
  unfold extractVulnerabilitiesFromAudit at hv
  unfold extractDependenciesFromAudit
  cases ha : a.vulnerabilities with
  | none =>
    rw [ha] at hv
    simp at hv
  | some entries =>
    rw [ha] at hv
    rw [List.mem_flatMap] at hv
    obtain ⟨e, he, hm⟩ := hv
    rw [List.mem_map] at hm
    obtain ⟨p, _, hmk⟩ := hm
    have hpkg : v.package = e.1 := by rw [← hmk]; rfl
    have hname : e.1 ∈ (vulnCountsOf entries).map Prod.fst := by
      unfold vulnCountsOf
      rw [List.map_map]
      exact List.mem_map_of_mem _ he
    exact ⟨mkDepRecord (vulnCountsOf entries) e.1,
      List.mem_map_of_mem _ (mem_dedupFirst _ _ hname), hpkg.symm⟩

/-- Witness for `vuln_package_in_dependencies` on the lodash scenario. -/
theorem vuln_package_in_dependencies_witness :
    ∃ d ∈ extractDependenciesFromAudit lodashAudit,
      d.name = (mkVulnRecord "lodash"
        { via := some [.obj { title := some "Prototype Pollution"
                              severity := some "high"
                              cvss := some (mkRat 15 2)
                              url := none }]
          severity := none
          fixAvailable := true } 0
        (.obj { title := some "Prototype Pollution"
                severity := some "high"
                cvss := some (mkRat 15 2)
                url := none })).package :=
  vuln_package_in_dependencies lodashAudit _ (by decide)

/-! ## History append then list (claim C8) -/

theorem histGet_histSet {α : Type} (m : HistoryMap α) (k : String)
    (v : StoredHistory α) : histGet (histSet m k v) k = v := by
  induction m with
  | nil =>
    simp [histSet, histGet, List.lookup]
  | cons e rest ih =>
    obtain ⟨k', v'⟩ := e
    unfold histSet
    by_cases h : k' = k
    · rw [if_pos h]
      simp [histGet, List.lookup]
    · rw [if_neg h]
      have hbeq : (k == k') = false := by
        simp only [beq_eq_false_iff_ne, ne_eq]
        exact fun hh => h hh.symm
      simp only [histGet, List.lookup, hbeq] at ih ⊢
      exact ih

/-- Claim C8: appending a result for a project and then listing that
project's history yields the new result at index 0 followed by the prior
entries in their original order, where a previously corrupt (unparseable)
or absent stored history contributes no prior entries instead of failing. -/
theorem history_append_then_list :
    (∀ (m : HistoryMap ScanResult) (pn : String) (r : ScanResult),
        getScansHandler (saveScanHistory m pn r) pn =
          .ok (r :: priorEntriesOf m (safeProjectName (some pn))))
    ∧ (∀ (m : HistoryMap ScanResult) (pn : String) (r : ScanResult),
        histGet m (safeProjectName (some pn)) = .corrupt →
          getScansHandler (saveScanHistory m pn r) pn = .ok [r]) := by
  have hmain : ∀ (m : HistoryMap ScanResult) (pn : String) (r : ScanResult),
      getScansHandler (saveScanHistory m pn r) pn =
        .ok (r :: priorEntriesOf m (safeProjectName (some pn))) := by
    intro m pn r
    unfold getScansHandler saveScanHistory
    rw [histGet_histSet]
  refine ⟨hmain, ?_⟩
  intro m pn r hc
  rw [hmain m pn r]
  unfold priorEntriesOf
  rw [hc]

/-- A concrete scan result used by closed witnesses. -/
def sampleResult : ScanResult :=
  { projectId := "id0"
    projectName := "p"
    summary :=
      { totalVulnerabilities := 0, critical := 0, high := 0, moderate := 0
        low := 0, riskScore := 0 }
    vulnerabilities := []
    dependencies := []
    signatures := extractSignaturesFromAudit emptyAudit
    scannedAt := "t0"
    durationMs := 0 }

/-- Witness for `history_append_then_list` on a corrupt stored history. -/
theorem history_append_then_list_witness :
    getScansHandler (saveScanHistory [("p", .corrupt)] "p" sampleResult) "p" =
      .ok [sampleResult] :=
  history_append_then_list.2 [("p", .corrupt)] "p" sampleResult (by decide)

/-! ## The trigger tag is observability-only (claim C9) -/

/-- Claim C9: two `runScanForProject` calls that agree on the manifest, the
project name, the prior history and the whole environment (scan id, clock,
subprocess and parse outcomes) but differ in the source tag return the same
result (or error), leave the same history, and reach the cleanup step
identically; only the console lines mention the tag. -/
theorem trigger_tag_observability_only (env : ScanEnv)
    (hist : HistoryMap ScanResult) (pkg : Manifest) (pn : String)
    (tag1 tag2 : String) :
    (runScanForProject env hist pkg pn tag1).result
        = (runScanForProject env hist pkg pn tag2).result
    ∧ (runScanForProject env hist pkg pn tag1).history
        = (runScanForProject env hist pkg pn tag2).history
    ∧ (runScanForProject env hist pkg pn tag1).cleanupAttempted
        = (runScanForProject env hist pkg pn tag2).cleanupAttempted := by
  unfold runScanForProject
  cases auditStep env.parse env.auditOutcome <;> exact ⟨rfl, rfl, rfl⟩

/-! ## Manual scan registers the project, not rolled back (claim C10) -/

theorem regGet_regSet (reg : Registry) (k : String) (v : Manifest) :
    regGet (regSet reg k v) k = some v := by
  induction reg with
  | nil =>
    simp [regSet, regGet, List.lookup]
  | cons e rest ih =>
    obtain ⟨k', v'⟩ := e
    unfold regSet
    by_cases h : k' = k
    · rw [if_pos h]
      simp [regGet, List.lookup]
    · rw [if_neg h]
      have hbeq : (k == k') = false := by
        simp only [beq_eq_false_iff_ne, ne_eq]
        exact fun hh => h hh.symm
      simp only [regGet, List.lookup, hbeq] at ih ⊢
      exact ih

/-- Claim C10: a `POST /scan` request carrying a manifest upserts the
monitor registry with the resolved project name and that manifest whatever
the scan outcome is, so after a request answered with a 500 pipeline error
the project is still registered with the newly submitted manifest. -/
theorem manual_scan_registration_survives_failure :
    (∀ (env : ScanEnv) (reg : Registry) (hist : HistoryMap ScanResult)
        (pkg : Manifest) (pn : Option String),
        (postScanHandler env reg hist ⟨some pkg, pn⟩).registry =
          regSet reg (resolveProjName pn pkg) pkg)
    ∧ (∀ (env : ScanEnv) (reg : Registry) (hist : HistoryMap ScanResult)
        (pkg : Manifest) (pn : Option String) (msg : String),
        (postScanHandler env reg hist ⟨some pkg, pn⟩).response = .serverError msg →
          regGet (postScanHandler env reg hist ⟨some pkg, pn⟩).registry
              (resolveProjName pn pkg) = some pkg) := by
  have hresp : ∀ (reg2 : Registry) (out : RunOutcome),
      (postRespond reg2 out).registry = reg2 := by
    intro reg2 out
    unfold postRespond
    cases out.result <;> rfl
  have hreg : ∀ (env : ScanEnv) (reg : Registry) (hist : HistoryMap ScanResult)
      (pkg : Manifest) (pn : Option String),
      (postScanHandler env reg hist ⟨some pkg, pn⟩).registry =
        regSet reg (resolveProjName pn pkg) pkg := by
    intro env reg hist pkg pn
    show (postRespond (regSet reg (resolveProjName pn pkg) pkg)
        (runScanForProject env hist pkg (resolveProjName pn pkg) "MANUAL")).registry =
      regSet reg (resolveProjName pn pkg) pkg
    exact hresp _ _
  refine ⟨hreg, ?_⟩
  intro env reg hist pkg pn msg _
  rw [hreg]
  exact regGet_regSet reg (resolveProjName pn pkg) pkg

/-- The manifest used by closed witnesses. -/
def samplePkg : Manifest :=
  { name := some "proj", rest := "deps" }

/-- A parse function that rejects everything (`JSON.parse` throwing on the
strings the scenario feeds it). -/
def noParse : String → Option AuditJson :=
  fun _ => none

/-- Environment where the audit subprocess is rejected with no captured
stdout (e.g. spawn failure or timeout). -/
def failNoStdoutEnv : ScanEnv :=
  { scanId := "id1"
    parse := noParse
    auditOutcome := .failure none "timeout"
    installOk := true
    scannedAt := "t1"
    durationMs := 5
    cleanupOk := true }

/-- Witness for `manual_scan_registration_survives_failure`: a request whose
scan fails with a 500 leaves the project registered. -/
theorem manual_scan_registration_survives_failure_witness :
    regGet (postScanHandler failNoStdoutEnv [] [] ⟨some samplePkg, none⟩).registry
        (resolveProjName none samplePkg) = some samplePkg :=
  manual_scan_registration_survives_failure.2 failNoStdoutEnv [] [] samplePkg none
    "npm audit failed: timeout" rfl

/-! ## Workspace teardown on the audit hard-failure path (claim C2) -/

/-- Environment of a clean scan over an empty audit report. -/
def okEnv : ScanEnv :=
  { scanId := "id2"
    parse := noParse
    auditOutcome := .success ""
    installOk := true
    scannedAt := "t2"
    durationMs := 1
    cleanupOk := true }

/-- Claim C2 evaluated on the code: when the audit step raises a hard
failure, `runScanForProject` propagates the error without ever reaching the
cleanup step (the `fs.rmSync` of the temp project directory comes after the
audit block and is not in a `finally`), whereas a successful run does reach
it — so the workspace teardown is NOT executed on the hard-failure exit
path, contradicting the claim. -/
theorem cleanup_skipped_on_audit_failure :
    (runScanForProject failNoStdoutEnv [] samplePkg "proj" "MANUAL").result
        = .error (.auditExecutionFailed "timeout")
    ∧ (runScanForProject failNoStdoutEnv [] samplePkg "proj" "MANUAL").cleanupAttempted
        = false
    ∧ (runScanForProject okEnv [] samplePkg "proj" "MANUAL").cleanupAttempted
        = true :=
  ⟨rfl, rfl, rfl⟩

/-! ## Audit failure handling (claim C1) -/

/-- Environment where the audit subprocess exits 0 but its stdout is not
parseable JSON. -/
def zeroExitGarbageEnv : ScanEnv :=
  { scanId := "id3"
    parse := noParse
    auditOutcome := .success "garbage"
    installOk := true
    scannedAt := "t3"
    durationMs := 2
    cleanupOk := true }

/-- Counterexample to claim C1 as stated: with an exit code of zero and a
non-empty stdout that fails to parse as JSON, the scan aborts, but with an
`AuditExecutionFailed`-kind error (`npm audit failed: ...`, because the
caught `SyntaxError` carries no `stdout` property) rather than the
`AuditOutputMalformed` kind the claim requires for unparseable stdout. -/
theorem audit_malformed_kind_cex :
    noParse "garbage" = none
    ∧ "garbage" ≠ ""
    ∧ (runScanForProject zeroExitGarbageEnv [] samplePkg "proj" "MANUAL").result
        = .error (.auditExecutionFailed jsonSyntaxErrorMsg)
    ∧ ScanError.auditExecutionFailed jsonSyntaxErrorMsg ≠ ScanError.auditOutputMalformed :=
  ⟨rfl, by decide, rfl, by decide⟩

/-- Claim C1 (amended): a non-zero audit exit whose stdout parses as JSON
lets the scan proceed and succeed; a process failure with absent or empty
stdout aborts with `AuditExecutionFailed`; a process failure whose
non-empty stdout fails to parse aborts with `AuditOutputMalformed`; a zero
exit whose non-empty stdout fails to parse aborts with an
`AuditExecutionFailed`-kind error carrying the JSON parse message; every
hard audit failure propagates out of `runScanForProject` unchanged, before
any extraction, scoring or persistence (the history is untouched) and
before the cleanup step. -/
theorem audit_failure_policy_amended :
    (∀ (parse : String → Option AuditJson) (s : String) (j : AuditJson) (msg : String),
        s ≠ "" → parse s = some j →
          auditStep parse (.failure (some s) msg) = .ok j)
    ∧ (∀ (parse : String → Option AuditJson) (msg : String),
        auditStep parse (.failure none msg) = .error (.auditExecutionFailed msg))
    ∧ (∀ (parse : String → Option AuditJson) (msg : String),
        auditStep parse (.failure (some "") msg) = .error (.auditExecutionFailed msg))
    ∧ (∀ (parse : String → Option AuditJson) (s : String) (msg : String),
        s ≠ "" → parse s = none →
          auditStep parse (.failure (some s) msg) = .error .auditOutputMalformed)
    ∧ (∀ (parse : String → Option AuditJson) (s : String),
        s ≠ "" → parse s = none →
          auditStep parse (.success s) = .error (.auditExecutionFailed jsonSyntaxErrorMsg))
    ∧ (∀ (env : ScanEnv) (hist : HistoryMap ScanResult) (pkg : Manifest)
        (pn tag : String) (e : ScanError),
        auditStep env.parse env.auditOutcome = .error e →
          (runScanForProject env hist pkg pn tag).result = .error e
          ∧ (runScanForProject env hist pkg pn tag).history = hist
          ∧ (runScanForProject env hist pkg pn tag).cleanupAttempted = false)
    ∧ (∀ (env : ScanEnv) (hist : HistoryMap ScanResult) (pkg : Manifest)
        (pn tag : String) (j : AuditJson),
        auditStep env.parse env.auditOutcome = .ok j →
          (runScanForProject env hist pkg pn tag).result
            = .ok (assembleScanResult env pn j)) := by
  refine ⟨?_, fun _ _ => rfl, fun _ _ => rfl, ?_, ?_, ?_, ?_⟩
  · intro parse s j msg hs hp
    simp only [auditStep]
    rw [if_neg hs, hp]
  · intro parse s msg hs hp
    simp only [auditStep]
    rw [if_neg hs, hp]
  · intro parse s hs hp
    simp only [auditStep]
    rw [if_neg hs, hp]
  · intro env hist pkg pn tag e h
    unfold runScanForProject
    rw [h]
    exact ⟨rfl, rfl, rfl⟩
  · intro env hist pkg pn tag j h
    unfold runScanForProject
    rw [h]

/-- A `JSON.parse` accepting only the string `"ok"`. -/
def parseOnlyOk : String → Option AuditJson :=
  fun s => if s = "ok" then some emptyAudit else none

/-- Environment where the audit exits non-zero but captured a parseable
stdout. -/
def nonZeroParseableEnv : ScanEnv :=
  { scanId := "id4"
    parse := parseOnlyOk
    auditOutcome := .failure (some "ok") "exit code 1"
    installOk := true
    scannedAt := "t4"
    durationMs := 3
    cleanupOk := true }

/-- Witness for `audit_failure_policy_amended` at concrete inputs. -/
theorem audit_failure_policy_amended_witness :
    auditStep parseOnlyOk (.failure (some "ok") "exit code 1") = .ok emptyAudit
    ∧ auditStep parseOnlyOk (.failure (some "junk") "exit code 1")
        = .error .auditOutputMalformed
    ∧ auditStep parseOnlyOk (.success "junk")
        = .error (.auditExecutionFailed jsonSyntaxErrorMsg)
    ∧ (runScanForProject nonZeroParseableEnv [] samplePkg "proj" "MANUAL").result
        = .ok (assembleScanResult nonZeroParseableEnv "proj" emptyAudit)
    ∧ (runScanForProject failNoStdoutEnv [] samplePkg "proj" "MANUAL").history = [] :=
  ⟨audit_failure_policy_amended.1 parseOnlyOk "ok" emptyAudit "exit code 1"
      (by decide) rfl,
   audit_failure_policy_amended.2.2.2.1 parseOnlyOk "junk" "exit code 1"
      (by decide) rfl,
   audit_failure_policy_amended.2.2.2.2.1 parseOnlyOk "junk" (by decide) rfl,
   audit_failure_policy_amended.2.2.2.2.2.2 nonZeroParseableEnv [] samplePkg
      "proj" "MANUAL" emptyAudit rfl,
   (audit_failure_policy_amended.2.2.2.2.2.1 failNoStdoutEnv [] samplePkg
      "proj" "MANUAL" (.auditExecutionFailed "timeout") rfl).2.1⟩

end NpmAudit
